import Mathlib

/-!
Verification of the dryoc secretstream module (src/src/dryocstream.rs) against its
specification. The file shallowly embeds the wrapper code from dryocstream.rs and,
where the claims depend on repository code that is not under src (the classic
crypto primitives, the constants module and the error type), models those parts
from the specification, as marked in the corresponding doc comments.
-/

namespace Dryoc

/-- Modelled from the spec: the error kinds of section 7 (the crate error type is not
under src; only its use sites in dryocstream.rs are). -/
inductive Error where
  | invalidTag
  | sizeMismatch
  | invalidInput
  | bufferTooSmall
  | authenticationFailed
  | encryptionFailed
  deriving DecidableEq

/-- Outcome of a Rust call as observed by the caller: a normal return, an explicit
error result, or a panic (process abort / unwind). The `panicked` constructor models
Rust panics such as `expect` on `None` and arithmetic overflow in debug builds. -/
inductive Outcome (α : Type) where
  | ok : α → Outcome α
  | err : Error → Outcome α
  | panicked : Outcome α
  deriving DecidableEq

/-- Modelled from the spec: numeric tag flag value of the libsodium-compatible
construction (the constants module is not under src). A normal message. -/
def CRYPTO_SECRETSTREAM_XCHACHA20POLY1305_TAG_MESSAGE : Nat := 0

/-- Modelled from the spec: end of a series of messages, but not of the stream. -/
def CRYPTO_SECRETSTREAM_XCHACHA20POLY1305_TAG_PUSH : Nat := 1

/-- Modelled from the spec: derives a new key for the stream. -/
def CRYPTO_SECRETSTREAM_XCHACHA20POLY1305_TAG_REKEY : Nat := 2

/-- Modelled from the spec: per-message authentication overhead, a fixed constant of
17 bytes (one framing byte plus a 16-byte MAC); the constants module is not under src. -/
def CRYPTO_SECRETSTREAM_XCHACHA20POLY1305_ABYTES : Nat := 17

/-- Abbreviation for the per-message overhead constant. -/
def ABYTES : Nat := CRYPTO_SECRETSTREAM_XCHACHA20POLY1305_ABYTES

/-- Union of all recognized tag flag bits, as computed by the bitflags macro from
MESSAGE, PUSH, REKEY and FINAL = PUSH ||| REKEY. -/
def Tag.ALL_BITS : Nat :=
  CRYPTO_SECRETSTREAM_XCHACHA20POLY1305_TAG_MESSAGE |||
  CRYPTO_SECRETSTREAM_XCHACHA20POLY1305_TAG_PUSH |||
  CRYPTO_SECRETSTREAM_XCHACHA20POLY1305_TAG_REKEY

/-- Message tag: a set of recognized flag bits (dryocstream.rs lines 173 to 186,
generated by the bitflags macro). The invariant states that the byte holds no bits
outside the recognized flags. -/
def Tag := { b : Nat // b &&& Tag.ALL_BITS = b }

instance : DecidableEq Tag := Subtype.instDecidableEq

/-- Bits accessor of a tag, as in bitflags. -/
def Tag.bits (t : Tag) : Nat := t.val

/-- Tag constant MESSAGE: a normal message in a stream. -/
def Tag.MESSAGE : Tag := ⟨CRYPTO_SECRETSTREAM_XCHACHA20POLY1305_TAG_MESSAGE, by decide⟩

/-- Tag constant PUSH: marks the end of a series of messages. -/
def Tag.PUSH : Tag := ⟨CRYPTO_SECRETSTREAM_XCHACHA20POLY1305_TAG_PUSH, by decide⟩

/-- Tag constant REKEY: derives a new key for the stream. -/
def Tag.REKEY : Tag := ⟨CRYPTO_SECRETSTREAM_XCHACHA20POLY1305_TAG_REKEY, by decide⟩

/-- Tag constant FINAL, defined in the source as the union of the PUSH and REKEY bits
(dryocstream.rs line 184). -/
def Tag.FINAL : Tag := ⟨Tag.PUSH.val ||| Tag.REKEY.val, by decide⟩

/-- Bitflags from_bits: succeeds exactly when the byte holds no unrecognized bits. -/
def Tag.fromBits (b : Nat) : Option Tag :=
  if h : b &&& Tag.ALL_BITS = b then some ⟨b, h⟩ else none

/-- Bitflags contains: every flag bit of `f` is set in `t`. -/
def Tag.contains (t f : Tag) : Bool := f.val &&& t.val == f.val

/-- From u8 conversion for Tag (dryocstream.rs lines 188 to 192): the source calls
`from_bits(other).expect(..)`, which panics on a byte with unrecognized bits. -/
def tag_from_u8 (b : Nat) : Outcome Tag :=
  match Tag.fromBits b with
  | some t => .ok t
  | none => .panicked

/-- Modelled from the spec: the secretstream state (the classic State type is not
under src). Per section 3 it holds the secret derived subkey and the nonce, split as
a 4-byte block counter and an 8-byte suffix. The subkey is modelled as an unbounded
natural produced by injective mixing, an idealization of the opaque key-derivation
primitive that the spec places out of scope. -/
structure StreamState where
  k : Nat
  counter : Nat
  suffix : Nat
  deriving DecidableEq

/-- Injective code of a full stream state, used to model the opaque deterministic
keystream primitive ideally: distinct states yield distinct keystream material. -/
def stateCode (s : StreamState) : Nat := Nat.pair s.k (Nat.pair s.counter s.suffix)

/-- Modelled from the spec: the one-time MAC key, the first 32 bytes of keystream
block 0 of the current state; idealized as the injective state code. -/
def macKey (s : StreamState) : Nat := stateCode s

/-- Modelled from the spec: keystream byte used to encrypt the one-byte framing
prefix that folds the tag into the authenticated stream. -/
def fmask (s : StreamState) : Nat := Nat.pair (stateCode s) 0 % 256

/-- Modelled from the spec: keystream byte at position i of the body keystream
(blocks subsequent to block 0). -/
def ksByte (s : StreamState) (i : Nat) : Nat := Nat.pair (stateCode s) i % 256

/-- Injective numeric code of a byte list, used by the ideal MAC model. -/
def listCode : List Nat → Nat
  | [] => 0
  | a :: rest => Nat.pair a (listCode rest) + 1

/-- Modelled from the spec: the one-time MAC over (framing byte, associated data,
ciphertext body) under a one-time key. The spec places the MAC primitive out of
scope and treats it as an opaque deterministic function whose purpose is tamper
detection; it is modelled here as an ideal (collision-free) MAC via injective
pairing. -/
def macF (key framing : Nat) (aad body : List Nat) : Nat :=
  Nat.pair key (Nat.pair framing (Nat.pair (listCode aad) (listCode body)))

/-- Ciphertext chunk as structured wire data: the encrypted one-byte framing prefix,
the encrypted body (one byte per message byte) and the MAC value. The spec (section
9, open question) deliberately leaves the flat byte layout unspecified, so the chunk
is modelled structurally; its wire length is `chunkLen`. -/
structure Chunk where
  framing : Nat
  body : List Nat
  mac : Nat
  deriving DecidableEq

/-- Wire length in bytes of a chunk: one framing byte, the body, and a 16-byte MAC. -/
def chunkLen (c : Chunk) : Nat := 1 + c.body.length + 16

/-- Default chunk value used with List.getD. -/
def dummyChunk : Chunk := ⟨0, [], 0⟩

/-- Modelled from the spec: body encryption, XOR of each byte with the keystream
material from blocks subsequent to block 0. Decryption is the same operation. -/
def encBody (s : StreamState) : Nat → List Nat → List Nat
  | _, [] => []
  | i, b :: rest => (b ^^^ ksByte s i) :: encBody s (i + 1) rest

/-- Body decryption: XOR with the same keystream, hence identical to encBody. -/
def decBody (s : StreamState) (l : List Nat) : List Nat := encBody s 1 l

/-- Modelled from the spec: unconditional rekey (step 7 of push). Derives a new
subkey from the current state plus the reserved rekey entropy from keystream block 0
(idealized as the injective state code) and resets the counter to zero. -/
def crypto_secretstream_xchacha20poly1305_rekey (s : StreamState) : StreamState :=
  ⟨s.k + stateCode s + 1, 0, s.suffix⟩

/-- Modelled from the spec: state advance after a processed message. The 4-byte
counter is advanced by one modulo 2 to the power 32; if the message tag includes the
REKEY bit (FINAL includes it) or the counter exhausts, an unconditional rekey runs. -/
def advance (s : StreamState) (tagbits : Nat) : StreamState :=
  if tagbits &&& CRYPTO_SECRETSTREAM_XCHACHA20POLY1305_TAG_REKEY ≠ 0 ∨
      (s.counter + 1) % 2 ^ 32 = 0 then
    crypto_secretstream_xchacha20poly1305_rekey
      ⟨s.k, (s.counter + 1) % 2 ^ 32, s.suffix⟩
  else ⟨s.k, (s.counter + 1) % 2 ^ 32, s.suffix⟩

/-- Modelled from the spec: the push primitive. Encrypts the framing byte and the
body, authenticates (framing byte, associated data, ciphertext body) under the
one-time MAC key of the current state, and advances the state. -/
def crypto_secretstream_xchacha20poly1305_push (s : StreamState) (m aad : List Nat)
    (tagbits : Nat) : Chunk × StreamState :=
  (⟨tagbits ^^^ fmask s, encBody s 1 m,
    macF (macKey s) (tagbits ^^^ fmask s) aad (encBody s 1 m)⟩,
   advance s tagbits)

/-- Modelled from the spec: the pull primitive. Recomputes the one-time MAC key from
the current state, verifies the MAC over (framing byte, associated data, ciphertext
body); on failure fails with AuthenticationFailed and releases no decrypted bytes;
on success decrypts the body, recovers the tag byte from the framing byte and
advances the state under the same conditions as push. -/
def crypto_secretstream_xchacha20poly1305_pull (s : StreamState) (c : Chunk)
    (aad : List Nat) : Except Error (List Nat × Nat × StreamState) :=
  if c.mac = macF (macKey s) c.framing aad c.body then
    .ok (decBody s c.body, c.framing ^^^ fmask s, advance s (c.framing ^^^ fmask s))
  else .error .authenticationFailed

/-- Modelled from the spec: push-side initialization. The header is modelled as the
pair of its first 16 bytes and last 8 bytes, each as a natural; the subkey is the
injective mix of the key with the first header half, the nonce starts with a zero
counter and the last header bytes as suffix. The source init_push draws the header
bytes at random; the model takes them as parameters and quantifies over them. -/
def init_push (key h16 h8 : Nat) : StreamState × (Nat × Nat) :=
  (⟨Nat.pair key h16, 0, h8⟩, (h16, h8))

/-- Pull-side initialization (dryocstream.rs lines 280 to 297): mirrors the push
derivation from the supplied key and header. -/
def init_pull (key : Nat) (header : Nat × Nat) : StreamState :=
  ⟨Nat.pair key header.1, 0, header.2⟩

/-- Wrapper push (dryocstream.rs lines 244 to 264): allocates message length plus
ABYTES bytes of output and calls the push primitive with the bits of the tag. The
primitive failure path (EncryptionFailed) does not occur in the model, matching the
spec remark that it is not expected under correct use. -/
def push (s : StreamState) (m aad : List Nat) (t : Tag) : Chunk × StreamState :=
  crypto_secretstream_xchacha20poly1305_push s m aad t.val

/-- Models lines 307 to 311 of the wrapper pull: `message.resize(ciphertext.len() -
ABYTES, 0)`. The subtraction is on usize: when the ciphertext is shorter than ABYTES
it underflows, so the call panics (debug builds abort on arithmetic overflow;
release builds wrap and the resulting near 2 to the power 64 resize aborts on
allocation). Otherwise it returns the allocated message length. -/
def pullAllocLen (clen : Nat) : Outcome Nat :=
  if clen < ABYTES then .panicked else .ok (clen - ABYTES)

/-- Wrapper pull (dryocstream.rs lines 301 to 322) on an input that parses as a
chunk (every input of length at least ABYTES does): calls the pull primitive, then
parses the returned tag byte with `Tag::from_bits(tag).expect(..)` (line 321), which
panics on a byte with unrecognized bits. -/
def pull (s : StreamState) (c : Chunk) (aad : List Nat) :
    Outcome (List Nat × Tag × StreamState) :=
  match crypto_secretstream_xchacha20poly1305_pull s c aad with
  | .error e => .err e
  | .ok (m, tb, s1) =>
    match Tag.fromBits tb with
    | some t => .ok (m, t, s1)
    | none => .panicked

/-- Wrapper rekey (dryocstream.rs lines 213 to 215): manual unconditional rekey of
the stream state. -/
def rekey (s : StreamState) : StreamState :=
  crypto_secretstream_xchacha20poly1305_rekey s

/-- Clone of a stream session (DryocStream derives Clone at line 195): a field-wise
copy of the state. -/
def clone (s : StreamState) : StreamState := s

/-- Default triple value used with List.getD. -/
def dfltTriple : List Nat × List Nat × Tag := ([], [], Tag.MESSAGE)

/-- Sequential push of a list of (message, associated data, tag) triples, returning
the ciphertext chunks in order and the final state. -/
def pushSeq (s : StreamState) : List (List Nat × List Nat × Tag) →
    List Chunk × StreamState
  | [] => ([], s)
  | x :: rest =>
    ((push s x.1 x.2.1 x.2.2).1 :: (pushSeq (push s x.1 x.2.1 x.2.2).2 rest).1,
     (pushSeq (push s x.1 x.2.1 x.2.2).2 rest).2)

/-- Sequential pull of a list of (chunk, associated data) pairs, returning the
recovered (message, tag) pairs in order and the final state, or the first abnormal
outcome. -/
def pullSeq (s : StreamState) : List (Chunk × List Nat) →
    Outcome (List (List Nat × Tag) × StreamState)
  | [] => .ok ([], s)
  | x :: rest =>
    match pull s x.1 x.2 with
    | .ok (m, t, s1) =>
      (match pullSeq s1 rest with
       | .ok (ms, sF) => .ok ((m, t) :: ms, sF)
       | .err e => .err e
       | .panicked => .panicked)
    | .err e => .err e
    | .panicked => .panicked

/-- State of a push stream after processing a list of triples; only the tags affect
the state evolution. -/
def stateAfter (s : StreamState) : List (List Nat × List Nat × Tag) → StreamState
  | [] => s
  | x :: rest => stateAfter (advance s x.2.2.val) rest

/-- Flip of bit i of a natural number. -/
def flipBit (x i : Nat) : Nat := x ^^^ 2 ^ i

/-- Chunk crafted by an attacker who holds the key (hence the current MAC key): its
framing byte decrypts to byte 4, which carries a bit outside the recognized tag
flags, and its MAC verifies. Feeding it to pull reaches the tag parse. -/
def forgedChunk (s : StreamState) (aad : List Nat) : Chunk :=
  ⟨4 ^^^ fmask s, [], macF (macKey s) (4 ^^^ fmask s) aad []⟩

/-- Strict lexicographic order on (subkey, counter), the measure that every state
advance strictly increases. -/
def lexLt (a b : StreamState) : Prop :=
  a.k < b.k ∨ (a.k = b.k ∧ a.counter < b.counter)

lemma listCode_inj : ∀ {l1 l2 : List Nat}, listCode l1 = listCode l2 → l1 = l2 := by
  intro l1
  induction l1 with
  | nil =>
    intro l2 h
    cases l2 with
    | nil => rfl
    | cons b r => simp [listCode] at h
  | cons a r ih =>
    intro l2 h
    cases l2 with
    | nil => simp [listCode] at h
    | cons b r2 =>
      simp only [listCode] at h
      obtain ⟨ha, hr⟩ := Nat.pair_eq_pair.mp (Nat.add_right_cancel h)
      rw [ha, ih hr]

lemma macF_inj {k1 k2 f1 f2 : Nat} {a1 a2 b1 b2 : List Nat}
    (h : macF k1 f1 a1 b1 = macF k2 f2 a2 b2) :
    k1 = k2 ∧ f1 = f2 ∧ a1 = a2 ∧ b1 = b2 := by
  unfold macF at h
  obtain ⟨hk, h⟩ := Nat.pair_eq_pair.mp h
  obtain ⟨hf, h⟩ := Nat.pair_eq_pair.mp h
  obtain ⟨ha, hb⟩ := Nat.pair_eq_pair.mp h
  exact ⟨hk, hf, listCode_inj ha, listCode_inj hb⟩

lemma stateCode_inj {a b : StreamState} (h : stateCode a = stateCode b) : a = b := by
  unfold stateCode at h
  obtain ⟨hk, h⟩ := Nat.pair_eq_pair.mp h
  obtain ⟨hc, hs⟩ := Nat.pair_eq_pair.mp h
  cases a
  cases b
  simp_all

lemma flipBit_ne (x i : Nat) : flipBit x i ≠ x := by
  unfold flipBit
  intro h
  have h2 := congrArg (fun y => x ^^^ y) h
  simp only [Nat.xor_cancel_left, Nat.xor_self] at h2
  exact absurd h2 (Nat.pos_iff_ne_zero.mp (Nat.two_pow_pos i))

lemma encBody_encBody (s : StreamState) :
    ∀ (i : Nat) (l : List Nat), encBody s i (encBody s i l) = l := by
  intro i l
  induction l generalizing i with
  | nil => rfl
  | cons b rest ih => simp [encBody, Nat.xor_cancel_right, ih]

lemma encBody_length (s : StreamState) :
    ∀ (i : Nat) (l : List Nat), (encBody s i l).length = l.length := by
  intro i l
  induction l generalizing i with
  | nil => rfl
  | cons b rest ih => simp [encBody, ih]

lemma tag_fromBits_val (t : Tag) : Tag.fromBits t.val = some t := by
  obtain ⟨b, hb⟩ := t
  simp [Tag.fromBits, hb]

lemma pull_push (s : StreamState) (m aad : List Nat) (t : Tag) :
    pull s (push s m aad t).1 aad = .ok (m, t, (push s m aad t).2) := by
  unfold pull push crypto_secretstream_xchacha20poly1305_pull
    crypto_secretstream_xchacha20poly1305_push
  rw [if_pos rfl]
  simp only [Nat.xor_cancel_right, tag_fromBits_val, decBody, encBody_encBody]

lemma pull_err (s : StreamState) (c : Chunk) (aad : List Nat)
    (h : c.mac ≠ macF (macKey s) c.framing aad c.body) :
    pull s c aad = .err .authenticationFailed := by
  unfold pull crypto_secretstream_xchacha20poly1305_pull
  rw [if_neg h]

lemma pull_push_mismatch (s1 s2 : StreamState) (m aad aad2 : List Nat) (t : Tag)
    (h : macKey s1 ≠ macKey s2 ∨ aad2 ≠ aad) :
    pull s2 (push s1 m aad t).1 aad2 = .err .authenticationFailed := by
  apply pull_err
  intro heq
  simp only [push, crypto_secretstream_xchacha20poly1305_push] at heq
  obtain ⟨hk, -, ha, -⟩ := macF_inj heq
  rcases h with h | h
  · exact h hk
  · exact h ha.symm

lemma lexLt_trans {a b c : StreamState} (h1 : lexLt a b) (h2 : lexLt b c) :
    lexLt a c := by
  unfold lexLt at *
  omega

lemma lexLt_ne {a b : StreamState} (h : lexLt a b) : a ≠ b := by
  rintro rfl
  unfold lexLt at h
  omega

lemma macKey_ne_of_lexLt {a b : StreamState} (h : lexLt a b) :
    macKey a ≠ macKey b :=
  fun he => lexLt_ne h (stateCode_inj he)

lemma rekey_k_lt (s : StreamState) :
    s.k < (crypto_secretstream_xchacha20poly1305_rekey s).k := by
  unfold crypto_secretstream_xchacha20poly1305_rekey
  show s.k < s.k + stateCode s + 1
  omega

lemma lexLt_advance (s : StreamState) (tagbits : Nat) (h : s.counter < 2 ^ 32) :
    lexLt s (advance s tagbits) := by
  unfold advance
  by_cases hc : tagbits &&& CRYPTO_SECRETSTREAM_XCHACHA20POLY1305_TAG_REKEY ≠ 0 ∨
      (s.counter + 1) % 2 ^ 32 = 0
  · rw [if_pos hc]
    exact Or.inl (rekey_k_lt ⟨s.k, (s.counter + 1) % 2 ^ 32, s.suffix⟩)
  · rw [if_neg hc]
    push_neg at hc
    refine Or.inr ⟨rfl, ?_⟩
    show s.counter < (s.counter + 1) % 2 ^ 32
    have h32 : s.counter + 1 < 2 ^ 32 ∨ s.counter + 1 = 2 ^ 32 := by omega
    rcases h32 with hlt | heq
    · rw [Nat.mod_eq_of_lt hlt]
      omega
    · exact absurd (by rw [heq, Nat.mod_self]) hc.2

lemma advance_counter_lt (s : StreamState) (tagbits : Nat) :
    (advance s tagbits).counter < 2 ^ 32 := by
  unfold advance
  by_cases hc : tagbits &&& CRYPTO_SECRETSTREAM_XCHACHA20POLY1305_TAG_REKEY ≠ 0 ∨
      (s.counter + 1) % 2 ^ 32 = 0
  · rw [if_pos hc]
    exact Nat.two_pow_pos 32
  · rw [if_neg hc]
    exact Nat.mod_lt _ (Nat.two_pow_pos 32)

lemma stateAfter_append (s : StreamState) (l1 l2 : List (List Nat × List Nat × Tag)) :
    stateAfter s (l1 ++ l2) = stateAfter (stateAfter s l1) l2 := by
  induction l1 generalizing s with
  | nil => rfl
  | cons x rest ih => simp [stateAfter, ih]

lemma stateAfter_counter_lt (s : StreamState) (l : List (List Nat × List Nat × Tag))
    (h : s.counter < 2 ^ 32) : (stateAfter s l).counter < 2 ^ 32 := by
  induction l generalizing s with
  | nil => exact h
  | cons x rest ih => exact ih (advance s x.2.2.val) (advance_counter_lt s x.2.2.val)

lemma lexLt_stateAfter (s : StreamState) (l : List (List Nat × List Nat × Tag))
    (h : s.counter < 2 ^ 32) (hne : l ≠ []) : lexLt s (stateAfter s l) := by
  induction l generalizing s with
  | nil => exact absurd rfl hne
  | cons x rest ih =>
    rcases eq_or_ne rest [] with rfl | hr
    · exact lexLt_advance s x.2.2.val h
    · exact lexLt_trans (lexLt_advance s x.2.2.val h)
        (ih (advance s x.2.2.val) (advance_counter_lt s x.2.2.val) hr)

lemma pushSeq_snd (s : StreamState) (ts : List (List Nat × List Nat × Tag)) :
    (pushSeq s ts).2 = stateAfter s ts := by
  induction ts generalizing s with
  | nil => rfl
  | cons x rest ih =>
    simp only [pushSeq, stateAfter]
    exact ih (push s x.1 x.2.1 x.2.2).2

lemma pushSeq_getD (s : StreamState) (ts : List (List Nat × List Nat × Tag))
    (j : Nat) (h : j < ts.length) :
    (pushSeq s ts).1.getD j dummyChunk =
      (push (stateAfter s (ts.take j)) (ts.getD j dfltTriple).1
        (ts.getD j dfltTriple).2.1 (ts.getD j dfltTriple).2.2).1 := by
  induction ts generalizing s j with
  | nil => simp at h
  | cons x rest ih =>
    cases j with
    | zero => simp [pushSeq, stateAfter]
    | succ j =>
      simp only [pushSeq, List.getD_cons_succ, List.take_succ_cons, stateAfter]
      exact ih (push s x.1 x.2.1 x.2.2).2 j (Nat.lt_of_succ_lt_succ h)

lemma pull_err_of_ne (s : StreamState) (m aad aad2 : List Nat) (t : Tag) (c2 : Chunk)
    (h : c2.framing ≠ (push s m aad t).1.framing ∨
         c2.body ≠ (push s m aad t).1.body ∨ aad2 ≠ aad)
    (hmac : c2.mac = (push s m aad t).1.mac) :
    pull s c2 aad2 = .err .authenticationFailed := by
  apply pull_err
  intro heq
  rw [hmac] at heq
  simp only [push, crypto_secretstream_xchacha20poly1305_push] at heq h
  obtain ⟨-, hf, ha, hb⟩ := macF_inj heq
  rcases h with h | h | h
  · exact h hf.symm
  · exact h hb.symm
  · exact h ha.symm

lemma lexLt_stateAfter_take (s0 : StreamState)
    (ts : List (List Nat × List Nat × Tag)) (i j : Nat)
    (hWF : s0.counter < 2 ^ 32) (hij : i < j) (hj : j ≤ ts.length) :
    lexLt (stateAfter s0 (ts.take i)) (stateAfter s0 (ts.take j)) := by
  have hsplit : ts.take j = ts.take i ++ (ts.drop i).take (j - i) := by
    have h2 := List.take_add ts i (j - i)
    rwa [Nat.add_sub_cancel' (Nat.le_of_lt hij)] at h2
  rw [hsplit, stateAfter_append]
  apply lexLt_stateAfter
  · exact stateAfter_counter_lt s0 _ hWF
  · intro hnil
    rcases List.take_eq_nil_iff.mp hnil with h0 | h0
    · omega
    · have := List.drop_eq_nil_iff.mp h0
      omega

/-- Claim C1: for every key, every header produced by init_push with that key, and
every ordered sequence of (message, associated data, tag) triples, pushing the
sequence and then pulling the resulting ciphertext chunks in the same order on a
pull stream initialized with the same key and header succeeds and returns messages
and tags identical to those pushed. -/
theorem c1_roundtrip (key h16 h8 : Nat) (ts : List (List Nat × List Nat × Tag)) :
    pullSeq (init_pull key (init_push key h16 h8).2)
      (((pushSeq (init_push key h16 h8).1 ts).1).zip (ts.map (fun x => x.2.1)))
    = Outcome.ok (ts.map (fun x => (x.1, x.2.2)),
        (pushSeq (init_push key h16 h8).1 ts).2) := by
  have hinit : init_pull key (init_push key h16 h8).2 = (init_push key h16 h8).1 := rfl
  rw [hinit]
  generalize (init_push key h16 h8).1 = s
  induction ts generalizing s with
  | nil => rfl
  | cons x rest ih =>
    have ih2 := ih (push s x.1 x.2.1 x.2.2).2
    rw [List.zip_eq_zipWith] at ih2
    simp only [pushSeq, List.map_cons, List.zip_cons_cons, pullSeq, pull_push, ih2]

/-- Claim C2: for every ciphertext chunk produced by push and every single-bit
modification of its framing byte, of one of its body bytes, of its MAC, or of the
associated data, pulling the modified input with the otherwise matching state
returns the error AuthenticationFailed and releases no decrypted message bytes. -/
theorem c2_tamper_detection (s : StreamState) (m aad : List Nat) (t : Tag) :
    (∀ i : Nat,
      pull s { (push s m aad t).1 with
               framing := flipBit (push s m aad t).1.framing i } aad
        = Outcome.err Error.authenticationFailed) ∧
    (∀ (u v : List Nat) (b i : Nat), (push s m aad t).1.body = u ++ b :: v →
      pull s { (push s m aad t).1 with body := u ++ flipBit b i :: v } aad
        = Outcome.err Error.authenticationFailed) ∧
    (∀ i : Nat,
      pull s { (push s m aad t).1 with mac := flipBit (push s m aad t).1.mac i } aad
        = Outcome.err Error.authenticationFailed) ∧
    (∀ (u v : List Nat) (b i : Nat), aad = u ++ b :: v →
      pull s (push s m aad t).1 (u ++ flipBit b i :: v)
        = Outcome.err Error.authenticationFailed) := by
  refine ⟨?_, ?_, ?_, ?_⟩
  · intro i
    exact pull_err_of_ne s m aad aad t _ (Or.inl (flipBit_ne _ i)) rfl
  · intro u v b i hbody
    refine pull_err_of_ne s m aad aad t _ (Or.inr (Or.inl ?_)) rfl
    show u ++ flipBit b i :: v ≠ (push s m aad t).1.body
    rw [hbody]
    intro hcontra
    have hcons := List.append_cancel_left hcontra
    exact flipBit_ne b i (List.head_eq_of_cons_eq hcons)
  · intro i
    apply pull_err
    show flipBit (push s m aad t).1.mac i ≠ macF (macKey s) _ aad _
    intro hcontra
    have hmac : (push s m aad t).1.mac
        = macF (macKey s) (push s m aad t).1.framing aad (push s m aad t).1.body := rfl
    rw [← hmac] at hcontra
    exact flipBit_ne _ i hcontra
  · intro u v b i haad
    refine pull_err_of_ne s m aad _ t _ (Or.inr (Or.inr ?_)) rfl
    rw [haad]
    intro hcontra
    have hcons := List.append_cancel_left hcontra
    exact flipBit_ne b i (List.head_eq_of_cons_eq hcons)

/-- Witness for C2 at a concrete state, message, associated data and tag, flipping
bit 0 of the single body byte and bit 0 of the single associated data byte. -/
theorem c2_tamper_detection_witness :
    pull (init_push 0 0 0).1
      { (push (init_push 0 0 0).1 [7] [9] Tag.MESSAGE).1 with
        body := [] ++ flipBit ((push (init_push 0 0 0).1 [7] [9] Tag.MESSAGE).1.body.getD 0 0) 0 :: [] } [9]
      = Outcome.err Error.authenticationFailed ∧
    pull (init_push 0 0 0).1 (push (init_push 0 0 0).1 [7] [9] Tag.MESSAGE).1
      ([] ++ flipBit 9 0 :: [])
      = Outcome.err Error.authenticationFailed :=
  ⟨(c2_tamper_detection (init_push 0 0 0).1 [7] [9] Tag.MESSAGE).2.1 [] []
      ((push (init_push 0 0 0).1 [7] [9] Tag.MESSAGE).1.body.getD 0 0) 0 (by decide),
   (c2_tamper_detection (init_push 0 0 0).1 [7] [9] Tag.MESSAGE).2.2.2 [] [] 9 0 rfl⟩

/-- Claim C3 (code evaluation): the wrapper pull allocates the output message as
ciphertext length minus ABYTES on usize before invoking the primitive; for every
input shorter than ABYTES the subtraction underflows and the call panics, so it
never returns the InvalidInput error the specification requires. -/
theorem c3_short_input_panics (clen : Nat) (h : clen < ABYTES) :
    pullAllocLen clen = Outcome.panicked ∧
    pullAllocLen clen ≠ Outcome.err Error.invalidInput := by
  unfold pullAllocLen
  rw [if_pos h]
  exact ⟨rfl, by simp⟩

/-- Witness for C3 at the concrete failing input of length 16. -/
theorem c3_short_input_panics_witness :
    pullAllocLen 16 = Outcome.panicked ∧
    pullAllocLen 16 ≠ Outcome.err Error.invalidInput :=
  c3_short_input_panics 16 (by decide)

/-- Claim C4 counterexample: parsing byte 4, which carries a bit outside the
recognized tag flags, through the From u8 impl panics (the source calls expect)
instead of returning an explicit error result. -/
theorem c4_counterexample :
    tag_from_u8 4 = Outcome.panicked ∧
    tag_from_u8 4 ≠ Outcome.err Error.invalidTag := by
  decide

/-- Claim C4 amended: parsing a recognized byte through the From u8 impl succeeds,
parsing a byte with unrecognized bits panics rather than returning an error, and
pull itself panics on a crafted chunk whose authenticated framing byte decrypts to
an unrecognized tag byte. -/
theorem c4_amended :
    (∀ t : Tag, tag_from_u8 t.val = Outcome.ok t) ∧
    (∀ b : Nat, b &&& Tag.ALL_BITS ≠ b → tag_from_u8 b = Outcome.panicked) ∧
    (∀ (s : StreamState) (aad : List Nat),
      pull s (forgedChunk s aad) aad = Outcome.panicked) := by
  refine ⟨?_, ?_, ?_⟩
  · intro t
    unfold tag_from_u8
    rw [tag_fromBits_val]
  · intro b hb
    unfold tag_from_u8
    simp [Tag.fromBits, hb]
  · intro s aad
    unfold pull crypto_secretstream_xchacha20poly1305_pull forgedChunk
    rw [if_pos rfl]
    simp only [Nat.xor_cancel_right, Tag.fromBits]
    rw [dif_neg (by decide : ¬((4 : Nat) &&& Tag.ALL_BITS = 4))]

/-- Witness for C4 amended at concrete bytes 3 and 4. -/
theorem c4_amended_witness :
    tag_from_u8 Tag.FINAL.val = Outcome.ok Tag.FINAL ∧
    tag_from_u8 4 = Outcome.panicked :=
  ⟨c4_amended.1 Tag.FINAL, c4_amended.2.1 4 (by decide)⟩

/-- Claim C5: pulling the chunk pushed at position j while the pull stream stands at
a different position i fails authentication; this covers swapped, duplicated and
replayed chunks, because the state advances strictly monotonically. -/
theorem c5_out_of_order (s0 : StreamState) (ts : List (List Nat × List Nat × Tag))
    (i j : Nat) (hWF : s0.counter < 2 ^ 32) (hi : i < ts.length)
    (hj : j < ts.length) (hne : i ≠ j) :
    pull (stateAfter s0 (ts.take i)) ((pushSeq s0 ts).1.getD j dummyChunk)
      (ts.getD j dfltTriple).2.1 = Outcome.err Error.authenticationFailed := by
  rw [pushSeq_getD s0 ts j hj]
  apply pull_push_mismatch
  left
  rcases Nat.lt_or_ge i j with hij | hij
  · exact (macKey_ne_of_lexLt
      (lexLt_stateAfter_take s0 ts i j hWF hij (Nat.le_of_lt hj))).symm
  · have hji : j < i := Nat.lt_of_le_of_ne hij (Ne.symm hne)
    exact macKey_ne_of_lexLt
      (lexLt_stateAfter_take s0 ts j i hWF hji (Nat.le_of_lt hi))

/-- Witness for C5: two concrete chunks pushed in order; pulling the second chunk
first (stream position 0) fails authentication. -/
theorem c5_out_of_order_witness :
    pull (stateAfter (init_push 0 0 0).1
        (([([1], [], Tag.MESSAGE), ([2], [], Tag.MESSAGE)] :
          List (List Nat × List Nat × Tag)).take 0))
      ((pushSeq (init_push 0 0 0).1
        [([1], [], Tag.MESSAGE), ([2], [], Tag.MESSAGE)]).1.getD 1 dummyChunk)
      (([([1], [], Tag.MESSAGE), ([2], [], Tag.MESSAGE)] :
          List (List Nat × List Nat × Tag)).getD 1 dfltTriple).2.1
    = Outcome.err Error.authenticationFailed :=
  c5_out_of_order (init_push 0 0 0).1
    [([1], [], Tag.MESSAGE), ([2], [], Tag.MESSAGE)] 0 1
    (by decide) (by decide) (by decide) (by decide)

/-- Claim C6: every push returns a ciphertext chunk of wire length exactly message
length plus ABYTES (17), and every successful pull returns a message of length
exactly ciphertext length minus ABYTES. -/
theorem c6_lengths :
    (∀ (s : StreamState) (m aad : List Nat) (t : Tag),
      chunkLen (push s m aad t).1 = m.length + ABYTES) ∧
    (∀ (s sF : StreamState) (c : Chunk) (aad m : List Nat) (t : Tag),
      pull s c aad = Outcome.ok (m, t, sF) → m.length = chunkLen c - ABYTES) := by
  constructor
  · intro s m aad t
    simp only [push, crypto_secretstream_xchacha20poly1305_push, chunkLen,
      encBody_length, ABYTES, CRYPTO_SECRETSTREAM_XCHACHA20POLY1305_ABYTES]
    omega
  · intro s sF c aad m t h
    unfold pull crypto_secretstream_xchacha20poly1305_pull at h
    by_cases hm : c.mac = macF (macKey s) c.framing aad c.body
    · rw [if_pos hm] at h
      simp only [] at h
      cases hfb : Tag.fromBits (c.framing ^^^ fmask s) with
      | none =>
        rw [hfb] at h
        exact absurd h (by simp)
      | some t2 =>
        rw [hfb] at h
        simp only [Outcome.ok.injEq, Prod.mk.injEq] at h
        obtain ⟨h1, -⟩ := h
        rw [← h1, decBody, encBody_length]
        unfold chunkLen ABYTES CRYPTO_SECRETSTREAM_XCHACHA20POLY1305_ABYTES
        omega
    · rw [if_neg hm] at h
      exact absurd h (by simp)

/-- Witness for C6 at a concrete one-byte message: the chunk is 18 bytes long and
the successfully pulled message is one byte long. -/
theorem c6_lengths_witness :
    chunkLen (push (init_push 0 0 0).1 [5] [] Tag.MESSAGE).1 = 1 + ABYTES ∧
    ([5] : List Nat).length
      = chunkLen (push (init_push 0 0 0).1 [5] [] Tag.MESSAGE).1 - ABYTES :=
  ⟨c6_lengths.1 (init_push 0 0 0).1 [5] [] Tag.MESSAGE,
   c6_lengths.2 (init_push 0 0 0).1 (advance (init_push 0 0 0).1 0)
     (push (init_push 0 0 0).1 [5] [] Tag.MESSAGE).1 [] [5] Tag.MESSAGE (by decide)⟩

/-- Claim C7: the tag constant FINAL equals the bitwise union of PUSH and REKEY, and
parsing its byte value yields a tag that contains both the PUSH and the REKEY flag. -/
theorem c7_final_composition :
    Tag.FINAL.val = (Tag.PUSH.val ||| Tag.REKEY.val) ∧
    Tag.fromBits Tag.FINAL.val = some Tag.FINAL ∧
    Tag.contains Tag.FINAL Tag.PUSH = true ∧
    Tag.contains Tag.FINAL Tag.REKEY = true := by
  decide

/-- Claim C8: every valid tag round-trips losslessly through its byte encoding, and
every byte with bits outside the recognized flags is an invalid tag under parsing. -/
theorem c8_tag_roundtrip :
    (∀ t : Tag, Tag.fromBits t.val = some t) ∧
    (∀ b : Nat, b &&& Tag.ALL_BITS ≠ b → Tag.fromBits b = none) := by
  constructor
  · exact tag_fromBits_val
  · intro b hb
    simp [Tag.fromBits, hb]

/-- Witness for C8 at concrete bytes: byte 4 carries an unrecognized bit and fails
parsing, while the FINAL tag round-trips. -/
theorem c8_tag_roundtrip_witness :
    Tag.fromBits 4 = none ∧ Tag.fromBits Tag.FINAL.val = some Tag.FINAL :=
  ⟨c8_tag_roundtrip.2 4 (by decide), c8_tag_roundtrip.1 Tag.FINAL⟩

/-- Claim C9: after any synchronized state, rekeying on both sides keeps the next
message decrypting correctly, while rekeying on exactly one side (either one) makes
the next pull fail authentication. -/
theorem c9_rekey_symmetry (s : StreamState) (m aad : List Nat) (t : Tag) :
    pull (rekey s) (push (rekey s) m aad t).1 aad
      = Outcome.ok (m, t, (push (rekey s) m aad t).2) ∧
    pull s (push (rekey s) m aad t).1 aad = Outcome.err Error.authenticationFailed ∧
    pull (rekey s) (push s m aad t).1 aad
      = Outcome.err Error.authenticationFailed := by
  have hlex : lexLt s (rekey s) := Or.inl (rekey_k_lt s)
  refine ⟨pull_push _ m aad t, ?_, ?_⟩
  · exact pull_push_mismatch (rekey s) s m aad aad t
      (Or.inl (macKey_ne_of_lexLt hlex).symm)
  · exact pull_push_mismatch s (rekey s) m aad aad t
      (Or.inl (macKey_ne_of_lexLt hlex))

/-- Claim C10: a stream session can be cloned, and pushing the same (message,
associated data, tag) on a session and on its clone yields identical ciphertext
chunks and leaves both sessions in equal states, so a clone holder can reproduce
past encryptions. -/
theorem c10_clone_determinism (s : StreamState) (m aad : List Nat) (t : Tag) :
    (push (clone s) m aad t).1 = (push s m aad t).1 ∧
    (push (clone s) m aad t).2 = (push s m aad t).2 ∧
    clone s = s :=
  ⟨rfl, rfl, rfl⟩

end Dryoc
